import Mathlib

/-!
Verification of the streaming audio playback scheduler of the live-audio
client (src/index.tsx).  The scheduler state consists of the watermark
`nextStartTime` and the in-flight set `sources` of scheduled
AudioBufferSourceNode handles.  Clock readings (`outputAudioContext.currentTime`)
and buffer durations are modelled as rationals; the handler code of
`onmessage`, the interruption branch, `reset`, `initAudio` and
`stopRecording` are embedded as pure state-transition functions.
-/

namespace LiveAudio

/-- One scheduled audio source handle: `source = createBufferSource()` with
its recorded scheduled start time (the argument of `source.start`) and the
decoded buffer duration (`audioBuffer.duration`).  The `sid` field stands for
the JavaScript object identity of the source node. -/
structure Source where
  sid : Nat
  start : ℚ
  duration : ℚ
deriving DecidableEq

/-- The playback-scheduler state of the GdmLiveAudio component: the watermark
`nextStartTime` and the in-flight set `sources` (a JS `Set` of source nodes,
modelled as a list of handles). -/
structure SchedState where
  nextStartTime : ℚ
  sources : List Source
deriving DecidableEq

/-- The start time the audio branch of `onmessage` assigns to a new buffer:
lines 199-202 clamp the watermark with `Math.max(nextStartTime, currentTime)`
and line 218 starts the source exactly there. -/
def startAt (s : SchedState) (now : ℚ) : ℚ :=
  max s.nextStartTime now

/-- The audio branch of `onmessage` (src/index.tsx lines 197-222).
Modelled from the spec: the chunk decoder (`decode` / `decodeAudioData`,
defined in utils which is not part of the sources) is pure and fallible;
its outcome is abstracted as `decoded : Option ℚ`, either the decoded
buffer duration or `none` for a thrown DecodeError.  The clamp
`nextStartTime := max(nextStartTime, currentTime)` is executed before the
decode is awaited, so a failing decode aborts the handler after the clamp:
the watermark keeps the clamped value and no source is created. -/
def scheduleAudio (s : SchedState) (now : ℚ) (sid : Nat) (decoded : Option ℚ) :
    SchedState :=
  let w := max s.nextStartTime now
  match decoded with
  | none => { s with nextStartTime := w }
  | some d => { nextStartTime := w + d, sources := s.sources ++ [⟨sid, w, d⟩] }

/-- The interruption branch of `onmessage` (src/index.tsx lines 224-233):
stop and delete every in-flight source — stopping a source whose playback
already ended is a no-op on the audio graph, so only the set removal is
state — then reset the watermark to the current clock reading. -/
def interrupt (s : SchedState) (now : ℚ) : SchedState :=
  { nextStartTime := now, sources := [] }

/-- The `ended` event listener registered on each source (src/index.tsx
lines 213-216): it removes that one source from the in-flight set and
leaves the watermark alone. -/
def sourceEnded (s : SchedState) (sid : Nat) : SchedState :=
  { s with sources := s.sources.filter (fun src => src.sid != sid) }

/-- The whole `onmessage` handler restricted to scheduler state
(src/index.tsx lines 190-234): first the audio branch if the message
carries audio, then the interruption branch if the message carries the
`interrupted` flag.  A decode rejection makes the `await` throw, so the
interruption branch is not reached on that message.  `nowA` is the clock
reading taken by the audio branch and `nowI` the one taken by the
interruption branch. -/
def onmessage (s : SchedState) (nowA : ℚ) (audio : Option (Option ℚ))
    (sid : Nat) (interrupted : Bool) (nowI : ℚ) : SchedState :=
  match audio with
  | some none => scheduleAudio s nowA sid none
  | some (some d) =>
      let s1 := scheduleAudio s nowA sid (some d)
      if interrupted then interrupt s1 nowI else s1
  | none => if interrupted then interrupt s nowI else s

/-- The `initAudio` method (src/index.tsx lines 117-120):
`nextStartTime := outputAudioContext.currentTime`. -/
def initAudio (s : SchedState) (now : ℚ) : SchedState :=
  { s with nextStartTime := now }

/-- The first half of the `reset` method (src/index.tsx lines 396-401):
stop and delete every pending source (errors from stopping ignored) and set
`nextStartTime := 0`. -/
def resetClear (s : SchedState) : SchedState :=
  { nextStartTime := 0, sources := [] }

/-- The scheduler-state effect of the full `reset` method (src/index.tsx
lines 388-412): clear the sources and zero the watermark, then re-run
`initClient`, whose first action `initAudio` reinitializes the watermark to
the clock reading `now` taken at that point. -/
def reset (s : SchedState) (now : ℚ) : SchedState :=
  initAudio (resetClear s) now

/-- The component state beyond the scheduler that `stopRecording` and
`reset` touch: the recording flag, the input-side nodes and the media
stream (each node modelled by whether it is present and connected),
and whether the AI session is open. -/
structure AppState where
  sched : SchedState
  isRecording : Bool
  scriptProcessorNode : Bool
  sourceNode : Bool
  mediaStream : Bool
  sessionOpen : Bool
deriving DecidableEq

/-- The `stopRecording` method (src/index.tsx lines 351-386): when neither
recording nor holding a media stream it only (re-)clears the recording flag
and returns early; otherwise it clears the flag, disconnects and drops the
script processor and the source node, and stops and drops the media
stream.  It never touches `nextStartTime` or `sources`. -/
def stopRecording (a : AppState) : AppState :=
  if !a.isRecording && !a.mediaStream then
    { a with isRecording := false }
  else
    { a with isRecording := false, scriptProcessorNode := false,
             sourceNode := false, mediaStream := false }

/-- The `reset` method at component level (src/index.tsx lines 388-412):
stop recording first, close the session, clear the pending sources and the
watermark, then re-initialize (which reopens a session and re-runs
`initAudio` with the clock reading `now`). -/
def appReset (a : AppState) (now : ℚ) : AppState :=
  let a1 := stopRecording a
  { a1 with sessionOpen := true, sched := reset a1.sched now }

/-- A run of successive successful schedule calls (no interruption in
between): each element of `calls` is the pair of the clock reading taken by
that call and the decoded buffer duration; `n` numbers the created source
handles. -/
def runSchedule : SchedState → Nat → List (ℚ × ℚ) → SchedState
  | s, _, [] => s
  | s, n, c :: rest => runSchedule (scheduleAudio s c.1 n (some c.2)) (n + 1) rest

/-- The list of start times assigned by a run of successive successful
schedule calls. -/
def scheduleStarts : SchedState → Nat → List (ℚ × ℚ) → List ℚ
  | _, _, [] => []
  | s, n, c :: rest =>
      startAt s c.1 :: scheduleStarts (scheduleAudio s c.1 n (some c.2)) (n + 1) rest

/-- The clock never overtakes the watermark along a run: each call's clock
reading is at most the watermark current at that call. -/
def noCatchUp (w : ℚ) : List (ℚ × ℚ) → Prop
  | [] => True
  | c :: rest => c.1 ≤ w ∧ noCatchUp (w + c.2) rest

/-- Sum of the durations of a list of schedule calls. -/
def durSum : List (ℚ × ℚ) → ℚ
  | [] => 0
  | c :: rest => c.2 + durSum rest

/-- Two handles occupy non-overlapping half-open playback intervals. -/
def DisjointSrc (a b : Source) : Prop :=
  a.start + a.duration ≤ b.start ∨ b.start + b.duration ≤ a.start

/-- Scheduler-state invariant: in-flight intervals are pairwise
non-overlapping and all end no later than the watermark. -/
def SchedInv (s : SchedState) : Prop :=
  s.sources.Pairwise DisjointSrc ∧
    ∀ src ∈ s.sources, src.start + src.duration ≤ s.nextStartTime

section BasicLemmas

lemma scheduleAudio_some_nextStartTime (s : SchedState) (t : ℚ) (sid : Nat) (d : ℚ) :
    (scheduleAudio s t sid (some d)).nextStartTime = max s.nextStartTime t + d := rfl

lemma scheduleAudio_some_sources (s : SchedState) (t : ℚ) (sid : Nat) (d : ℚ) :
    (scheduleAudio s t sid (some d)).sources
      = s.sources ++ [⟨sid, max s.nextStartTime t, d⟩] := rfl

lemma scheduleAudio_none_eq (s : SchedState) (t : ℚ) (sid : Nat) :
    scheduleAudio s t sid none = { s with nextStartTime := max s.nextStartTime t } := rfl

end BasicLemmas

/-- C7: calling the interruption branch twice in a row with no intervening
schedule leaves the watermark equal to the clock reading of the second call
and has no further side effect — the state after the two calls is exactly
the state a single interruption at the second reading produces, and the
in-flight set is empty after the first call and stays empty. -/
theorem c7_interrupt_idempotent (s : SchedState) (t1 t2 : ℚ) :
    interrupt (interrupt s t1) t2 = interrupt s t2
    ∧ (interrupt (interrupt s t1) t2).nextStartTime = t2
    ∧ (interrupt s t1).sources = []
    ∧ (interrupt (interrupt s t1) t2).sources = [] :=
  ⟨rfl, rfl, rfl, rfl⟩

/-- C8: reset is the interruption effect followed by discarding session
state and reinitializing the watermark to the clock at `initAudio` time:
afterwards every previously in-flight handle is removed, the watermark
equals the reinitialization clock reading, and reset is idempotent (also
callable when nothing is in flight). -/
theorem c8_reset_spec (a : AppState) (now t : ℚ) :
    (appReset a now).sched.nextStartTime = now
    ∧ (appReset a now).sched.sources = []
    ∧ reset a.sched now = initAudio (interrupt a.sched t) now
    ∧ appReset (appReset a t) now = appReset a now
    ∧ reset (reset a.sched t) now = reset a.sched now
    ∧ reset { nextStartTime := a.sched.nextStartTime, sources := [] } now
        = reset a.sched now := by
  refine ⟨rfl, rfl, rfl, ?_, rfl, rfl⟩
  rcases a with ⟨sched, rec, sp, sn, ms, so⟩
  cases rec <;> cases ms <;>
    simp [appReset, stopRecording, reset, resetClear, initAudio]

/-- C9: a message carrying both an audio chunk and the interrupted flag is
handled audio-first: the chunk is decoded and scheduled (its handle enters
the in-flight set and the watermark advances by its duration), and the
interruption branch then stops and removes it, so the final in-flight set
is empty and the final watermark is the clock reading of the interruption
branch. -/
theorem c9_audio_then_interrupt (s : SchedState) (nowA d : ℚ) (sid : Nat) (nowI : ℚ) :
    onmessage s nowA (some (some d)) sid true nowI
      = interrupt (scheduleAudio s nowA sid (some d)) nowI
    ∧ (⟨sid, startAt s nowA, d⟩ : Source) ∈ (scheduleAudio s nowA sid (some d)).sources
    ∧ (scheduleAudio s nowA sid (some d)).nextStartTime = startAt s nowA + d
    ∧ (onmessage s nowA (some (some d)) sid true nowI).sources = []
    ∧ (onmessage s nowA (some (some d)) sid true nowI).nextStartTime = nowI := by
  refine ⟨rfl, ?_, rfl, rfl, rfl⟩
  simp [scheduleAudio, startAt]

/-- C10: stopping the microphone capture leaves the playback scheduler
state (watermark and in-flight set) and the session exactly as they were;
only the recording flag, the input-side nodes and the media stream are
modified. -/
theorem c10_stopRecording_frame (a : AppState) :
    (stopRecording a).sched = a.sched
    ∧ (stopRecording a).sessionOpen = a.sessionOpen
    ∧ (stopRecording a).isRecording = false
    ∧ (stopRecording a).mediaStream = false := by
  rcases a with ⟨sched, rec, sp, sn, ms, so⟩
  cases rec <;> cases ms <;> simp [stopRecording]

/-- C3: the interruption branch empties the in-flight set (removal is all
that is left of stopping, since stopping an already-finished source is a
no-op) and resets the watermark to the clock at the call; a subsequent
schedule call at a later clock reading starts its buffer exactly at that
later reading — in particular no earlier than the clock at the
interruption. -/
theorem c3_interrupt_barrier (s : SchedState) (t0 t1 : ℚ) (sid : Nat) (d : ℚ)
    (h : t0 ≤ t1) :
    (interrupt s t0).sources = []
    ∧ (interrupt s t0).nextStartTime = t0
    ∧ startAt (interrupt s t0) t1 = t1
    ∧ t0 ≤ startAt (interrupt s t0) t1
    ∧ (scheduleAudio (interrupt s t0) t1 sid (some d)).sources = [⟨sid, t1, d⟩] := by
  refine ⟨rfl, rfl, ?_, ?_, ?_⟩
  · simpa [startAt, interrupt] using max_eq_right h
  · exact le_max_left t0 t1
  · simp [scheduleAudio, interrupt, max_eq_right h]

/-- Witness for C3 at a concrete interrupted state and later clock. -/
theorem c3_witness :
    (interrupt ⟨5, [⟨0, 0, 5⟩]⟩ 1).sources = []
    ∧ (interrupt ⟨5, [⟨0, 0, 5⟩]⟩ 1).nextStartTime = 1
    ∧ startAt (interrupt ⟨5, [⟨0, 0, 5⟩]⟩ 1) 2 = 2
    ∧ (1 : ℚ) ≤ startAt (interrupt ⟨5, [⟨0, 0, 5⟩]⟩ 1) 2
    ∧ (scheduleAudio (interrupt ⟨5, [⟨0, 0, 5⟩]⟩ 1) 2 7 (some 3)).sources
        = [⟨7, 2, 3⟩] :=
  c3_interrupt_barrier ⟨5, [⟨0, 0, 5⟩]⟩ 1 2 7 3 (by norm_num)

/-- C2, counterexample to the claim as stated: with watermark 0 and clock
reading 1, a chunk whose decode fails leaves the watermark at
max(0, 1) = 1, not at its previous value 0 — the clamp
`nextStartTime := max(nextStartTime, currentTime)` runs before the decode
is awaited, so a DecodeError does not leave the watermark untouched. -/
theorem c2_counterexample :
    (onmessage ⟨0, []⟩ 1 (some none) 0 false 0).nextStartTime
      ≠ (⟨0, []⟩ : SchedState).nextStartTime := by
  simp [onmessage, scheduleAudio]

/-- C2 amended: a chunk whose decode fails leaves the in-flight set
untouched and changes the watermark only by clamping it up to the clock
reading of the call, `nextStartTime := max(nextStartTime, clock.now())` —
a no-op whenever the clock has not overtaken the watermark — and the next
successfully decoded chunk is scheduled exactly as it would have been had
the failed chunk never arrived (hence still contiguously with the last
successfully scheduled chunk when the clock stays behind the watermark). -/
theorem c2_decode_failure_isolated (s : SchedState) (now : ℚ) (sid : Nat) :
    (onmessage s now (some none) sid false now).sources = s.sources
    ∧ (onmessage s now (some none) sid false now).nextStartTime
        = max s.nextStartTime now
    ∧ (now ≤ s.nextStartTime → onmessage s now (some none) sid false now = s)
    ∧ ∀ now2 d sid2, now ≤ now2 →
        scheduleAudio (onmessage s now (some none) sid false now) now2 sid2 (some d)
          = scheduleAudio s now2 sid2 (some d) := by
  refine ⟨rfl, rfl, ?_, ?_⟩
  · intro h
    rcases s with ⟨w, srcs⟩
    simp [onmessage, scheduleAudio, max_eq_left h]
  · intro now2 d sid2 h
    rcases s with ⟨w, srcs⟩
    simp [onmessage, scheduleAudio, max_assoc, max_eq_right h]

/-- Witness for C2 amended at a concrete state, failed chunk and later
successful chunk. -/
theorem c2_witness :
    (onmessage ⟨2, []⟩ 1 (some none) 4 false 1).sources = (⟨2, []⟩ : SchedState).sources
    ∧ (onmessage ⟨2, []⟩ 1 (some none) 4 false 1).nextStartTime = max 2 1
    ∧ onmessage ⟨2, []⟩ 1 (some none) 4 false 1 = (⟨2, []⟩ : SchedState)
    ∧ scheduleAudio (onmessage ⟨2, []⟩ 1 (some none) 4 false 1) 3 5 (some 7)
        = scheduleAudio ⟨2, []⟩ 3 5 (some 7) := by
  obtain ⟨h1, h2, h3, h4⟩ := c2_decode_failure_isolated ⟨2, []⟩ 1 4
  exact ⟨h1, h2, h3 (by norm_num), h4 3 7 5 (by norm_num)⟩

section GaplessRun

lemma scheduleAudio_wm_noCatchUp (s : SchedState) (n : Nat) (c : ℚ × ℚ)
    (h1 : c.1 ≤ s.nextStartTime) :
    (scheduleAudio s c.1 n (some c.2)).nextStartTime = s.nextStartTime + c.2 := by
  simp [scheduleAudio_some_nextStartTime, max_eq_left h1]

lemma scheduleStarts_getElem :
    ∀ (calls : List (ℚ × ℚ)) (s : SchedState) (n k : Nat),
      noCatchUp s.nextStartTime calls → k < calls.length →
      (scheduleStarts s n calls)[k]? = some (s.nextStartTime + durSum (calls.take k))
  | [], _, _, k, _, hk => absurd hk (by simp)
  | c :: rest, s, n, 0, h, _ => by
      simp [scheduleStarts, startAt, durSum, max_eq_left h.1]
  | c :: rest, s, n, k + 1, h, hk => by
      have hwm := scheduleAudio_wm_noCatchUp s n c h.1
      have ih := scheduleStarts_getElem rest (scheduleAudio s c.1 n (some c.2))
        (n + 1) k (by rw [hwm]; exact h.2) (by simpa using hk)
      simp only [scheduleStarts, List.getElem?_cons_succ, ih, hwm,
        List.take_succ_cons, durSum]
      rw [add_assoc, add_comm c.2]

lemma runSchedule_wm :
    ∀ (calls : List (ℚ × ℚ)) (s : SchedState) (n : Nat),
      noCatchUp s.nextStartTime calls →
      (runSchedule s n calls).nextStartTime = s.nextStartTime + durSum calls
  | [], s, _, _ => by simp [runSchedule, durSum]
  | c :: rest, s, n, h => by
      have hwm := scheduleAudio_wm_noCatchUp s n c h.1
      have ih := runSchedule_wm rest (scheduleAudio s c.1 n (some c.2)) (n + 1)
        (by rw [hwm]; exact h.2)
      rw [runSchedule, ih, hwm, durSum]
      ring

lemma noCatchUp_take :
    ∀ (calls : List (ℚ × ℚ)) (w : ℚ) (k : Nat),
      noCatchUp w calls → noCatchUp w (calls.take k)
  | [], _, _, h => by simpa using h
  | _ :: _, _, 0, _ => trivial
  | c :: rest, w, k + 1, h => ⟨h.1, noCatchUp_take rest (w + c.2) k h.2⟩

lemma durSum_take_succ :
    ∀ (calls : List (ℚ × ℚ)) (k : Nat) (c : ℚ × ℚ),
      calls[k]? = some c →
      durSum (calls.take (k + 1)) = durSum (calls.take k) + c.2
  | [], _, _, h => by simp at h
  | a :: rest, 0, c, h => by
      simp only [List.getElem?_cons_zero, Option.some.injEq] at h
      subst h
      simp [durSum]
  | a :: rest, k + 1, c, h => by
      have ih := durSum_take_succ rest k c (by simpa using h)
      simp [durSum, ih, add_assoc]

end GaplessRun

/-- C1: along a run of successfully decoded buffers during which the clock
never overtakes the watermark, the k-th buffer's scheduled start time is
the first buffer's start time plus the sum of the first k durations before
it, and after each schedule the watermark equals that buffer's start time
plus its duration (gapless back-to-back concatenation). -/
theorem c1_gapless_concatenation (s : SchedState) (n : Nat)
    (calls : List (ℚ × ℚ)) (h : noCatchUp s.nextStartTime calls)
    (k : Nat) (hk : k < calls.length) :
    (scheduleStarts s n calls)[k]? = some (s.nextStartTime + durSum (calls.take k))
    ∧ (scheduleStarts s n calls)[0]? = some s.nextStartTime
    ∧ ∀ c, calls[k]? = some c →
        (runSchedule s n (calls.take (k + 1))).nextStartTime
          = s.nextStartTime + durSum (calls.take k) + c.2 := by
  refine ⟨scheduleStarts_getElem calls s n k h hk, ?_, ?_⟩
  · have h0 := scheduleStarts_getElem calls s n 0 h
      (Nat.lt_of_le_of_lt (Nat.zero_le k) hk)
    simpa [durSum] using h0
  · intro c hc
    have hw := runSchedule_wm (calls.take (k + 1)) s n
      (noCatchUp_take calls s.nextStartTime (k + 1) h)
    rw [hw, durSum_take_succ calls k c hc, add_assoc]

/-- Witness for C1 on the concrete run of two buffers of durations 1 and 2
scheduled at clock reading 0 from watermark 0. -/
theorem c1_witness :
    (scheduleStarts ⟨0, []⟩ 0 [(0, 1), (0, 2)])[1]?
      = some ((0 : ℚ) + durSum ([((0 : ℚ), (1 : ℚ)), (0, 2)].take 1))
    ∧ (scheduleStarts ⟨0, []⟩ 0 [(0, 1), (0, 2)])[0]? = some (0 : ℚ)
    ∧ (runSchedule ⟨0, []⟩ 0 ([((0 : ℚ), (1 : ℚ)), (0, 2)].take 2)).nextStartTime
      = (0 : ℚ) + durSum ([((0 : ℚ), (1 : ℚ)), (0, 2)].take 1) + 2 := by
  have h := c1_gapless_concatenation ⟨0, []⟩ 0 [(0, 1), (0, 2)]
    ⟨le_refl 0, by norm_num, trivial⟩ 1 (by norm_num)
  exact ⟨h.1, h.2.1, h.2.2 (0, 2) rfl⟩

section Disjointness

lemma schedInv_scheduleAudio (s : SchedState) (t : ℚ) (n : Nat) (d : ℚ)
    (h : SchedInv s) (hd : 0 ≤ d) : SchedInv (scheduleAudio s t n (some d)) := by
  obtain ⟨hp, hb⟩ := h
  constructor
  · rw [scheduleAudio_some_sources, List.pairwise_append]
    refine ⟨hp, by simp, ?_⟩
    intro a ha b hbmem
    simp only [List.mem_singleton] at hbmem
    subst hbmem
    exact Or.inl (le_trans (hb a ha) (le_max_left _ _))
  · intro src hsrc
    rw [scheduleAudio_some_sources] at hsrc
    rw [scheduleAudio_some_nextStartTime]
    rcases List.mem_append.mp hsrc with h1 | h1
    · exact le_trans (hb src h1) (le_add_of_le_of_nonneg (le_max_left _ _) hd)
    · simp only [List.mem_singleton] at h1
      subst h1
      exact le_refl _

lemma schedInv_runSchedule :
    ∀ (calls : List (ℚ × ℚ)) (s : SchedState) (n : Nat),
      SchedInv s → (∀ c ∈ calls, 0 ≤ c.2) →
      SchedInv (runSchedule s n calls)
  | [], _, _, h, _ => h
  | c :: rest, s, n, h, hd =>
      schedInv_runSchedule rest (scheduleAudio s c.1 n (some c.2)) (n + 1)
        (schedInv_scheduleAudio s c.1 n c.2 h (hd c (by simp)))
        (fun x hx => hd x (by simp [hx]))

lemma scheduleStarts_lower_bound :
    ∀ (calls : List (ℚ × ℚ)) (s : SchedState) (n : Nat) (x : ℚ),
      (∀ c ∈ calls, 0 ≤ c.2) → x ∈ scheduleStarts s n calls →
      s.nextStartTime ≤ x
  | [], _, _, _, _, hx => absurd hx (by simp [scheduleStarts])
  | c :: rest, s, n, x, hd, hx => by
      rw [scheduleStarts] at hx
      rcases List.mem_cons.mp hx with h1 | h1
      · subst h1
        exact le_max_left _ _
      · have hlow := scheduleStarts_lower_bound rest
          (scheduleAudio s c.1 n (some c.2)) (n + 1) x
          (fun y hy => hd y (by simp [hy])) h1
        rw [scheduleAudio_some_nextStartTime] at hlow
        calc s.nextStartTime ≤ max s.nextStartTime c.1 := le_max_left _ _
          _ ≤ max s.nextStartTime c.1 + c.2 := le_add_of_nonneg_right (hd c (by simp))
          _ ≤ x := hlow

lemma scheduleStarts_sorted :
    ∀ (calls : List (ℚ × ℚ)) (s : SchedState) (n : Nat),
      (∀ c ∈ calls, 0 ≤ c.2) →
      List.Sorted (· ≤ ·) (scheduleStarts s n calls)
  | [], _, _, _ => List.sorted_nil
  | c :: rest, s, n, hd => by
      rw [scheduleStarts]
      refine List.sorted_cons.mpr
        ⟨?_, scheduleStarts_sorted rest _ (n + 1) (fun y hy => hd y (by simp [hy]))⟩
      intro b hb
      have hlow := scheduleStarts_lower_bound rest
        (scheduleAudio s c.1 n (some c.2)) (n + 1) b
        (fun y hy => hd y (by simp [hy])) hb
      rw [scheduleAudio_some_nextStartTime] at hlow
      simp only [startAt]
      calc max s.nextStartTime c.1 ≤ max s.nextStartTime c.1 + c.2 :=
            le_add_of_nonneg_right (hd c (by simp))
        _ ≤ b := hlow

end Disjointness

/-- C5: across a serialized run of schedule calls with no interruption,
starting from a state satisfying the scheduler invariant and scheduling
buffers of nonnegative duration, the assigned start times are monotonically
non-decreasing and no two handles simultaneously in flight occupy
overlapping playback intervals. -/
theorem c5_monotone_nonoverlapping (s : SchedState) (n : Nat)
    (calls : List (ℚ × ℚ)) (hs : SchedInv s) (hd : ∀ c ∈ calls, 0 ≤ c.2) :
    List.Sorted (· ≤ ·) (scheduleStarts s n calls)
    ∧ SchedInv (runSchedule s n calls)
    ∧ (runSchedule s n calls).sources.Pairwise DisjointSrc :=
  ⟨scheduleStarts_sorted calls s n hd,
   schedInv_runSchedule calls s n hs hd,
   (schedInv_runSchedule calls s n hs hd).1⟩

/-- Witness for C5 on a concrete run of three buffers. -/
theorem c5_witness :
    List.Sorted (· ≤ ·) (scheduleStarts ⟨0, []⟩ 0 [(0, 1), (0, 2), (2, 1)])
    ∧ SchedInv (runSchedule ⟨0, []⟩ 0 [(0, 1), (0, 2), (2, 1)])
    ∧ (runSchedule ⟨0, []⟩ 0 [(0, 1), (0, 2), (2, 1)]).sources.Pairwise DisjointSrc :=
  c5_monotone_nonoverlapping ⟨0, []⟩ 0 [(0, 1), (0, 2), (2, 1)]
    ⟨List.Pairwise.nil, by simp⟩ (by norm_num)

/-- C6: scheduling buffers of durations 1, 1/2 and 2 seconds with the clock
starting at 0, the watermark initialized to 0 and the clock never
overtaking the watermark between calls yields start times 0, 1, 3/2 and a
final watermark of 7/2. -/
theorem c6_scenario (t2 t3 : ℚ) (h2 : t2 ≤ 1) (h3 : t3 ≤ 3 / 2) :
    scheduleStarts ⟨0, []⟩ 0 [(0, 1), (t2, 1 / 2), (t3, 2)] = [0, 1, 3 / 2]
    ∧ (runSchedule ⟨0, []⟩ 0 [(0, 1), (t2, 1 / 2), (t3, 2)]).nextStartTime
        = 7 / 2 := by
  have e2 : max (1 : ℚ) t2 = 1 := max_eq_left h2
  have e3 : max (3 / 2 : ℚ) t3 = 3 / 2 := max_eq_left h3
  constructor <;>
    · simp only [scheduleStarts, runSchedule, scheduleAudio, startAt]
      norm_num [e2, e3]

/-- Witness for C6 with concrete intermediate clock readings 1/2 and 1. -/
theorem c6_witness :
    scheduleStarts ⟨0, []⟩ 0 [(0, 1), (1 / 2, 1 / 2), (1, 2)] = [0, 1, 3 / 2]
    ∧ (runSchedule ⟨0, []⟩ 0 [(0, 1), (1 / 2, 1 / 2), (1, 2)]).nextStartTime
        = 7 / 2 :=
  c6_scenario (1 / 2) 1 (by norm_num) (by norm_num)

/-- One scheduler-state-affecting event of the component: an inbound server
message (with its optional audio part, abstract decode outcome and
interrupted flag, and the clock readings taken by the two branches), the
`ended` event of one source, or a full reset with the clock reading taken
by its `initAudio`. -/
inductive Op where
  | message (nowA : ℚ) (audio : Option (Option ℚ)) (sid : Nat)
      (interrupted : Bool) (nowI : ℚ)
  | ended (sid : Nat)
  | doReset (now : ℚ)

/-- Effect of one event on the scheduler state. -/
def applyOp (s : SchedState) : Op → SchedState
  | Op.message nowA audio sid interrupted nowI =>
      onmessage s nowA audio sid interrupted nowI
  | Op.ended sid => sourceEnded s sid
  | Op.doReset now => reset s now

/-- The last clock reading an event takes, when it takes one: the
interruption branch reading when that branch runs, otherwise the audio
branch reading when the audio branch runs (a failed decode aborts the
handler before the interruption branch), the `initAudio` reading for a
reset, and none for an `ended` event. -/
def opEndClock : Op → Option ℚ
  | Op.message nowA audio _ interrupted nowI =>
      match audio with
      | some none => some nowA
      | some (some _) => if interrupted then some nowI else some nowA
      | none => if interrupted then some nowI else none
  | Op.ended _ => none
  | Op.doReset now => some now

/-- The watermark update each event performs, as found in the code: a
successful schedule sets it to max(watermark, clock) + duration, a failed
decode clamps it to max(watermark, clock), an interruption or a completed
reset sets it to the clock, and everything else leaves it alone. -/
def WatermarkUpdate (s : SchedState) (op : Op) (w2 : ℚ) : Prop :=
  match op with
  | Op.message nowA audio _ interrupted nowI =>
      match audio, interrupted with
      | none, false => w2 = s.nextStartTime
      | none, true => w2 = nowI
      | some none, _ => w2 = max s.nextStartTime nowA
      | some (some d), false => w2 = max s.nextStartTime nowA + d
      | some (some _), true => w2 = nowI
  | Op.ended _ => w2 = s.nextStartTime
  | Op.doReset now => w2 = now

/-- Well-formedness of an event: a successfully decoded buffer has a
nonnegative duration (durations are frameCount / sampleRate). -/
def OpWF : Op → Prop
  | Op.message _ (some (some d)) _ _ _ => 0 ≤ d
  | _ => True

/-- C4, counterexample to the claim as stated: the watermark is not mutated
only by the successful-schedule rule and the reset rule — a message whose
decode fails (no schedule, no interruption, no reset) still changes the
watermark, from 0 to max(0, 1) = 1 here, because the clamp runs before the
decode is awaited. -/
theorem c4_counterexample :
    (applyOp ⟨0, []⟩ (Op.message 1 (some none) 0 false 0)).nextStartTime
      ≠ (⟨0, []⟩ : SchedState).nextStartTime
    ∧ (applyOp ⟨0, []⟩ (Op.message 1 (some none) 0 false 0)).sources
      = (⟨0, []⟩ : SchedState).sources := by
  constructor
  · simp [applyOp, onmessage, scheduleAudio]
  · rfl

/-- C4 amended: after every well-formed scheduler event completes, the
watermark is at least the last clock reading the event took (events that
read no clock leave it unchanged), and the watermark is mutated only by the
updates actually in the code — successful schedule max(watermark, now) +
duration, failed-decode clamp max(watermark, now), interruption now, and
reset now (passing momentarily through 0 while the reset clears state). -/
theorem c4_watermark_invariant (s : SchedState) (op : Op) (hw : OpWF op) :
    WatermarkUpdate s op (applyOp s op).nextStartTime
    ∧ (∀ t, opEndClock op = some t → t ≤ (applyOp s op).nextStartTime)
    ∧ (opEndClock op = none → (applyOp s op).nextStartTime = s.nextStartTime)
    ∧ ∀ now, reset s now = initAudio (resetClear s) now
        ∧ (resetClear s).nextStartTime = 0 := by
  refine ⟨?_, ?_, ?_, fun now => ⟨rfl, rfl⟩⟩
  · cases op with
    | message nowA audio sid interrupted nowI =>
        rcases audio with _ | (_ | d) <;> cases interrupted <;> rfl
    | ended sid => rfl
    | doReset now => rfl
  · intro t ht
    cases op with
    | message nowA audio sid interrupted nowI =>
        rcases audio with _ | (_ | d)
        · cases interrupted
          · simp [opEndClock] at ht
          · simp [opEndClock] at ht
            subst ht
            exact le_refl _
        · simp [opEndClock] at ht
          subst ht
          exact le_max_right _ _
        · cases interrupted
          · simp [opEndClock] at ht
            subst ht
            exact le_add_of_le_of_nonneg (le_max_right _ _) hw
          · simp [opEndClock] at ht
            subst ht
            exact le_refl _
    | ended sid => simp [opEndClock] at ht
    | doReset now =>
        simp [opEndClock] at ht
        subst ht
        exact le_refl _
  · intro ht
    cases op with
    | message nowA audio sid interrupted nowI =>
        rcases audio with _ | (_ | d)
        · cases interrupted
          · rfl
          · simp [opEndClock] at ht
        · simp [opEndClock] at ht
        · cases interrupted <;> simp [opEndClock] at ht
    | ended sid => rfl
    | doReset now => simp [opEndClock] at ht

/-- Witness for C4 amended on a concrete reset event. -/
theorem c4_witness :
    WatermarkUpdate ⟨0, [⟨0, 0, 1⟩]⟩ (Op.doReset 5)
      (applyOp ⟨0, [⟨0, 0, 1⟩]⟩ (Op.doReset 5)).nextStartTime
    ∧ (5 : ℚ) ≤ (applyOp ⟨0, [⟨0, 0, 1⟩]⟩ (Op.doReset 5)).nextStartTime := by
  have h := c4_watermark_invariant ⟨0, [⟨0, 0, 1⟩]⟩ (Op.doReset 5) trivial
  exact ⟨h.1, h.2.1 5 rfl⟩

end LiveAudio
